import Mathlib

/-!
Shallow embedding of the bitwise flags manager (src/index.js).

The JavaScript class `FlagsManager` holds a mutable integer register
`this.flags` and an ordered name-to-value object `this.FLAGS`.  We model the
instance state as a structure, mutation as state passing, and a thrown
`Error` as `Except.error` carrying the offending integer (the JS error
message is `Invalid flag: ${flag}`, so the integer determines it).
JavaScript bitwise operators coerce each operand to 32-bit two's complement
(ToInt32).  The validated operations only ever combine the register with
members of the definition set, all in the signed 32-bit range, where the
arbitrary-precision two's-complement operations `Int.land`, `Int.lor`,
`Int.xor` and `Int.lnot` agree bit-for-bit with the 32-bit ones, so those
model the validated paths; `areFlagsSet`, whose arguments are unvalidated
and may lie outside that range, is modelled with an explicit `toInt32`
wrap on every operand, as the JS operators apply.
-/

namespace BitwiseFlags

/-- JS `1 << n`: the shift count is taken mod 32 and the result is
reinterpreted as a signed 32-bit integer, so bit 31 comes out negative. -/
def jsShl1 (n : Nat) : Int :=
  if n % 32 = 31 then -(2 ^ 31) else (2 : Int) ^ (n % 32)

/-- JS object property assignment `o[k] = v` on an insertion-ordered object
modelled as an association list: an existing key keeps its position and gets
the new value; a new key is appended at the end. -/
def objSet (o : List (String × Int)) (k : String) (v : Int) : List (String × Int) :=
  if o.any (fun p => p.1 == k) then
    o.map (fun p => if p.1 == k then (k, v) else p)
  else
    o ++ [(k, v)]

/-- `createCustomFlags(flagNames)` from src/index.js:
`flagNames.reduce((acc, flag, index) => { acc[flag] = 1 << index; return acc; }, {})`. -/
def createCustomFlags (flagNames : List String) : List (String × Int) :=
  flagNames.enum.foldl (fun acc p => objSet acc p.2 (jsShl1 p.1)) []

/-- The frozen `DEFAULT_FLAGS` enumeration from src/index.js, in declaration
order. -/
def DEFAULT_FLAGS : List (String × Int) :=
  [("VERIFIED_EMAIL", 1), ("VERIFIED_PHONE", 2), ("INVITED", 4), ("ACCEPTED", 8),
   ("RESET_PASSWORD", 16), ("LOGGED_IN_FIRST_TIME", 32), ("LOGGED_IN", 64),
   ("ADMIN", 128), ("MODERATOR", 256), ("BANNED", 512), ("PREMIUM_USER", 1024),
   ("TWO_FACTOR_AUTH", 2048), ("EMAIL_NOTIFICATIONS", 4096),
   ("SMS_NOTIFICATIONS", 8192), ("PROFILE_COMPLETED", 16384)]

/-- Instance state of a `FlagsManager`: the register `this.flags` and the
flag definition set `this.FLAGS`. -/
structure FlagsManager where
  flags : Int
  FLAGS : List (String × Int)
deriving DecidableEq, Repr

/-- The constructor: `this.flags = 0` and `this.FLAGS` is either the custom
set built by `createCustomFlags` or the default enumeration.  The source
performs no validation here: construction always succeeds. -/
def mkFlagsManager (customFlagNames : Option (List String)) : FlagsManager :=
  { flags := 0,
    FLAGS :=
      match customFlagNames with
      | some names => createCustomFlags names
      | none => DEFAULT_FLAGS }

/-- `_validateFlag(flag)`: throws `Invalid flag: ${flag}` unless the value is
among `Object.values(this.FLAGS)`. -/
def validateFlag (m : FlagsManager) (flag : Int) : Except Int Unit :=
  if (m.FLAGS.map Prod.snd).contains flag then Except.ok () else Except.error flag

/-- The `flags.forEach((flag) => this._validateFlag(flag))` loop inside
`setFlags`: validates left to right, propagating the first thrown error. -/
def validateAll (m : FlagsManager) : List Int → Except Int Unit
  | [] => Except.ok ()
  | f :: rest => do
    validateFlag m f
    validateAll m rest

/-- `setFlags(...flags)`: validates every argument, then
`this.flags = flags.reduce((acc, flag) => acc | flag, this.flags)`.
An `Except.error` result means the thrown error escaped before the register
assignment ran, so the caller's state is the unchanged input state. -/
def setFlags (m : FlagsManager) (fs : List Int) : Except Int FlagsManager := do
  validateAll m fs
  pure { m with flags := fs.foldl Int.lor m.flags }

/-- `isFlagSet(flag)`: validates, then returns `(this.flags & flag) !== 0`. -/
def isFlagSet (m : FlagsManager) (flag : Int) : Except Int Bool := do
  validateFlag m flag
  pure (decide (Int.land m.flags flag ≠ 0))

/-- `toggleFlag(flag)`: validates, then `this.flags ^= flag`. -/
def toggleFlag (m : FlagsManager) (flag : Int) : Except Int FlagsManager := do
  validateFlag m flag
  pure { m with flags := Int.xor m.flags flag }

/-- `unsetFlag(flag)`: validates, then `this.flags &= ~flag`. -/
def unsetFlag (m : FlagsManager) (flag : Int) : Except Int FlagsManager := do
  validateFlag m flag
  pure { m with flags := Int.land m.flags (Int.lnot flag) }

/-- `getActiveFlags()`: `Object.keys(this.FLAGS)` in declaration order,
filtered by `isFlagSet(this.FLAGS[flag])`.  The looked-up value is always a
member of the set, so the internal validation never throws and the filter
test is exactly `(this.flags & value) !== 0`. -/
def getActiveFlags (m : FlagsManager) : List String :=
  (m.FLAGS.filter (fun p => decide (Int.land m.flags p.2 ≠ 0))).map Prod.fst

/-- `clearFlags()`: `this.flags = 0`. -/
def clearFlags (m : FlagsManager) : FlagsManager :=
  { m with flags := 0 }

/-- JS ToInt32: reduce mod `2 ^ 32 = 4294967296` into the signed range
from `-2 ^ 31 = -2147483648` up to `2 ^ 31`.  Every JS bitwise operator
applies this coercion to each operand.  For the validated operations the
operands are always in this range already (the definition-set values and
the register), so the coercion is the identity there; `areFlagsSet` is the
one operation whose arguments are unvalidated, so its model must wrap. -/
def toInt32 (x : Int) : Int :=
  (x + 2147483648) % 4294967296 - 2147483648

/-- JS `a | b`: ToInt32 both operands, then bitwise OR.  The OR of two
int32-range values is again in int32 range, so no wrap of the result is
needed. -/
def jsOr (a b : Int) : Int := Int.lor (toInt32 a) (toInt32 b)

/-- JS `a & b`: ToInt32 both operands, then bitwise AND. -/
def jsAnd (a b : Int) : Int := Int.land (toInt32 a) (toInt32 b)

/-- `areFlagsSet(...flags)`: folds the (unvalidated) arguments with the JS
32-bit OR starting from 0 and returns
`(this.flags & combinedFlags) === combinedFlags` with the JS 32-bit AND. -/
def areFlagsSet (m : FlagsManager) (fs : List Int) : Bool :=
  let combinedFlags := fs.foldl jsOr 0
  decide (jsAnd m.flags combinedFlags = combinedFlags)

/-- One mutating API call, used to express reachability of register states. -/
inductive Op where
  | set (fs : List Int)
  | toggle (f : Int)
  | unset (f : Int)
  | clear
deriving DecidableEq, Repr

/-- Dispatch one operation against the current state. -/
def applyOp (m : FlagsManager) : Op → Except Int FlagsManager
  | Op.set fs => setFlags m fs
  | Op.toggle f => toggleFlag m f
  | Op.unset f => unsetFlag m f
  | Op.clear => Except.ok (clearFlags m)

/-- Run a sequence of operations; the whole run fails as soon as one throws. -/
def runOps (m : FlagsManager) : List Op → Except Int FlagsManager
  | [] => Except.ok m
  | op :: rest => do
    let m1 ← applyOp m op
    runOps m1 rest

/-! ### Bit-level helper lemmas for the two's-complement integer operations -/

theorem int_testBit_zero_bit (i : Nat) : Int.testBit 0 i = false :=
  Nat.zero_testBit i

theorem int_eq_of_testBit_eq {m n : Int} (h : ∀ i, m.testBit i = n.testBit i) : m = n := by
  cases m with
  | ofNat a =>
    cases n with
    | ofNat b =>
      exact congrArg Int.ofNat (Nat.eq_of_testBit_eq fun i => h i)
    | negSucc b =>
      exfalso
      have ha : Nat.testBit a (a + b) = false :=
        Nat.testBit_lt_two_pow (Nat.lt_of_le_of_lt (Nat.le_add_right a b) (Nat.lt_two_pow (a + b)))
      have hb : Nat.testBit b (a + b) = false :=
        Nat.testBit_lt_two_pow (Nat.lt_of_le_of_lt (Nat.le_add_left b a) (Nat.lt_two_pow (a + b)))
      have hab := h (a + b)
      rw [show Int.testBit (Int.ofNat a) (a + b) = Nat.testBit a (a + b) from rfl,
          show Int.testBit (Int.negSucc b) (a + b) = !(Nat.testBit b (a + b)) from rfl,
          ha, hb] at hab
      simp at hab
  | negSucc a =>
    cases n with
    | ofNat b =>
      exfalso
      have ha : Nat.testBit a (a + b) = false :=
        Nat.testBit_lt_two_pow (Nat.lt_of_le_of_lt (Nat.le_add_right a b) (Nat.lt_two_pow (a + b)))
      have hb : Nat.testBit b (a + b) = false :=
        Nat.testBit_lt_two_pow (Nat.lt_of_le_of_lt (Nat.le_add_left b a) (Nat.lt_two_pow (a + b)))
      have hab := h (a + b)
      rw [show Int.testBit (Int.negSucc a) (a + b) = !(Nat.testBit a (a + b)) from rfl,
          show Int.testBit (Int.ofNat b) (a + b) = Nat.testBit b (a + b) from rfl,
          ha, hb] at hab
      simp at hab
    | negSucc b =>
      refine congrArg Int.negSucc (Nat.eq_of_testBit_eq fun i => ?_)
      have := h i
      rw [show Int.testBit (Int.negSucc a) i = !(Nat.testBit a i) from rfl,
          show Int.testBit (Int.negSucc b) i = !(Nat.testBit b i) from rfl] at this
      exact Bool.not_inj this

theorem int_land_zero (r : Int) : Int.land r 0 = 0 := by
  refine int_eq_of_testBit_eq fun i => ?_
  simp [Int.testBit_land, int_testBit_zero_bit]

theorem int_xor_xor_cancel (r a : Int) : Int.xor (Int.xor r a) a = r := by
  refine int_eq_of_testBit_eq fun i => ?_
  simp [Int.testBit_lxor, Bool.xor_assoc]

theorem int_set_unset_clears (r a : Int) :
    Int.land (Int.land (Int.lor r a) (Int.lnot a)) a = 0 := by
  refine int_eq_of_testBit_eq fun i => ?_
  cases ha : a.testBit i <;>
    simp [Int.testBit_land, Int.testBit_lor, Int.testBit_lnot, ha, int_testBit_zero_bit]

theorem int_land_lnot_of_land_eq_zero {r a : Int} (h : Int.land r a = 0) :
    Int.land r (Int.lnot a) = r := by
  refine int_eq_of_testBit_eq fun i => ?_
  have hi := congrArg (fun z => Int.testBit z i) h
  simp only [Int.testBit_land, int_testBit_zero_bit] at hi
  cases ha : a.testBit i with
  | false => simp [Int.testBit_land, Int.testBit_lnot, ha]
  | true =>
    rw [ha, Bool.and_true] at hi
    simp [Int.testBit_land, Int.testBit_lnot, ha, hi]

theorem int_land_eq_self_iff {r x : Int} :
    Int.land r x = x ↔ ∀ i, x.testBit i = true → r.testBit i = true := by
  constructor
  · intro h i hx
    have hi := congrArg (fun z => Int.testBit z i) h
    simp only [Int.testBit_land] at hi
    rw [hx, Bool.and_true] at hi
    exact hi
  · intro h
    refine int_eq_of_testBit_eq fun i => ?_
    cases hx : x.testBit i with
    | false => simp [Int.testBit_land, hx]
    | true => simp [Int.testBit_land, hx, h i hx]

theorem testBit_foldl_lor (fs : List Int) (init : Int) (i : Nat) :
    Int.testBit (fs.foldl Int.lor init) i
      = (init.testBit i || fs.any (fun f => f.testBit i)) := by
  induction fs generalizing init with
  | nil => simp
  | cons f t ih =>
    rw [List.foldl_cons, ih, List.any_cons]
    simp [Int.testBit_lor, Bool.or_assoc]

theorem int_zero_land (r : Int) : Int.land 0 r = 0 := by
  refine int_eq_of_testBit_eq fun i => ?_
  simp [Int.testBit_land, int_testBit_zero_bit]

theorem int_land_lnot_self (a : Int) : Int.land a (Int.lnot a) = 0 := by
  refine int_eq_of_testBit_eq fun i => ?_
  cases ha : a.testBit i <;>
    simp [Int.testBit_land, Int.testBit_lnot, ha, int_testBit_zero_bit]

theorem int_land_eq_zero_iff {a b : Int} :
    Int.land a b = 0 ↔ ∀ i, (a.testBit i && b.testBit i) = false := by
  constructor
  · intro h i
    have hi := congrArg (fun z => Int.testBit z i) h
    simpa [Int.testBit_land, int_testBit_zero_bit] using hi
  · intro h
    refine int_eq_of_testBit_eq fun i => ?_
    rw [Int.testBit_land, h i, int_testBit_zero_bit]

theorem int_lor_preserves_mask {M a b : Int} (ha : Int.land a M = 0)
    (hb : Int.land b M = 0) : Int.land (Int.lor a b) M = 0 := by
  rw [int_land_eq_zero_iff] at ha hb ⊢
  intro i
  have h1 := ha i
  have h2 := hb i
  rw [Int.testBit_lor]
  cases hM : M.testBit i with
  | false => simp
  | true =>
    rw [hM, Bool.and_true] at h1 h2
    simp [h1, h2]

theorem int_xor_preserves_mask {M a b : Int} (ha : Int.land a M = 0)
    (hb : Int.land b M = 0) : Int.land (Int.xor a b) M = 0 := by
  rw [int_land_eq_zero_iff] at ha hb ⊢
  intro i
  have h1 := ha i
  have h2 := hb i
  rw [Int.testBit_lxor]
  cases hM : M.testBit i with
  | false => simp
  | true =>
    rw [hM, Bool.and_true] at h1 h2
    simp [h1, h2]

theorem int_landlnot_preserves_mask {M a : Int} (f : Int) (ha : Int.land a M = 0) :
    Int.land (Int.land a (Int.lnot f)) M = 0 := by
  rw [int_land_eq_zero_iff] at ha ⊢
  intro i
  have h1 := ha i
  rw [Int.testBit_land]
  cases hM : M.testBit i with
  | false => simp
  | true =>
    rw [hM, Bool.and_true] at h1
    simp [h1]

theorem int_testBit_two_pow (k i : Nat) :
    Int.testBit ((2 : Int) ^ k) i = decide (k = i) := by
  have h2 : ((2 : Int) ^ k) = Int.ofNat (2 ^ k) := by
    show ((2 : Int) ^ k) = ((2 ^ k : Nat) : Int)
    exact_mod_cast rfl
  rw [h2]
  show Nat.testBit (2 ^ k) i = decide (k = i)
  exact Nat.testBit_two_pow

theorem int_testBit_32767 (i : Nat) : Int.testBit 32767 i = decide (i < 15) := by
  show Nat.testBit 32767 i = decide (i < 15)
  rw [show (32767 : Nat) = 2 ^ 15 - 1 by norm_num, Nat.testBit_two_pow_sub_one]

theorem int_small_masked (n : Nat) (hlt : n < 2 ^ 15) :
    Int.land (Int.ofNat n) (Int.lnot 32767) = 0 := by
  rw [int_land_eq_zero_iff]
  intro i
  rw [Int.testBit_lnot, int_testBit_32767]
  rcases Nat.lt_or_ge i 15 with hi | hi
  · simp [hi]
  · have hbit : Nat.testBit n i = false :=
      Nat.testBit_lt_two_pow (lt_of_lt_of_le hlt (Nat.pow_le_pow_right (by norm_num) hi))
    rw [show Int.testBit (Int.ofNat n) i = Nat.testBit n i from rfl, hbit]
    simp

theorem foldl_lor_masked {M : Int} (fs : List Int) (r : Int)
    (hr : Int.land r M = 0) (hfs : ∀ f ∈ fs, Int.land f M = 0) :
    Int.land (fs.foldl Int.lor r) M = 0 := by
  induction fs generalizing r with
  | nil => exact hr
  | cons g t ih =>
    rw [List.foldl_cons]
    exact ih (Int.lor r g) (int_lor_preserves_mask hr (hfs g (List.mem_cons_self g t)))
      (fun f hf => hfs f (List.mem_cons_of_mem g hf))

theorem default_value_masked (f : Int)
    (h : (DEFAULT_FLAGS.map Prod.snd).contains f = true) :
    Int.land f (Int.lnot 32767) = 0 := by
  have hm : f ∈ DEFAULT_FLAGS.map Prod.snd := List.elem_iff.mp h
  simp only [DEFAULT_FLAGS, List.map_cons, List.map_nil, List.mem_cons,
    List.not_mem_nil, or_false] at hm
  rcases hm with rfl | rfl | rfl | rfl | rfl | rfl | rfl | rfl | rfl | rfl |
    rfl | rfl | rfl | rfl | rfl <;>
    exact int_small_masked _ (by norm_num)

/-! ### Unfolding lemmas for the fallible operations -/

theorem validateFlag_ok (m : FlagsManager) (f : Int)
    (h : (m.FLAGS.map Prod.snd).contains f = true) :
    validateFlag m f = Except.ok () := by
  unfold validateFlag
  rw [h]
  rfl

theorem validateFlag_error (m : FlagsManager) (f : Int)
    (h : (m.FLAGS.map Prod.snd).contains f = false) :
    validateFlag m f = Except.error f := by
  unfold validateFlag
  rw [h]
  rfl

theorem validateAll_cons (m : FlagsManager) (g : Int) (t : List Int) :
    validateAll m (g :: t) = (validateFlag m g).bind (fun _ => validateAll m t) := rfl

theorem validateAll_ok (m : FlagsManager) {fs : List Int}
    (h : ∀ f ∈ fs, (m.FLAGS.map Prod.snd).contains f = true) :
    validateAll m fs = Except.ok () := by
  induction fs with
  | nil => rfl
  | cons g t ih =>
    rw [validateAll_cons, validateFlag_ok m g (h g (List.mem_cons_self g t))]
    exact ih fun f hf => h f (List.mem_cons_of_mem g hf)

theorem validateAll_first_error (m : FlagsManager) {fs : List Int}
    (h : ∃ f ∈ fs, (m.FLAGS.map Prod.snd).contains f = false) :
    ∃ f ∈ fs, (m.FLAGS.map Prod.snd).contains f = false ∧
      validateAll m fs = Except.error f := by
  induction fs with
  | nil => simp at h
  | cons g t ih =>
    cases hg : (m.FLAGS.map Prod.snd).contains g with
    | true =>
      obtain ⟨f, hf, hfc⟩ := h
      have hft : f ∈ t := by
        rcases List.mem_cons.mp hf with rfl | hmem
        · rw [hg] at hfc; exact absurd hfc (by simp)
        · exact hmem
      obtain ⟨f1, hf1, hc1, he1⟩ := ih ⟨f, hft, hfc⟩
      refine ⟨f1, List.mem_cons_of_mem g hf1, hc1, ?_⟩
      rw [validateAll_cons, validateFlag_ok m g hg]
      exact he1
    | false =>
      refine ⟨g, List.mem_cons_self g t, hg, ?_⟩
      rw [validateAll_cons, validateFlag_error m g hg]
      rfl

theorem contains_of_validateAll_ok (m : FlagsManager) {fs : List Int}
    (h : validateAll m fs = Except.ok ()) :
    ∀ f ∈ fs, (m.FLAGS.map Prod.snd).contains f = true := by
  induction fs with
  | nil => intro f hf; simp at hf
  | cons g t ih =>
    intro f hf
    rw [validateAll_cons] at h
    cases hg : (m.FLAGS.map Prod.snd).contains g with
    | false =>
      rw [validateFlag_error m g hg] at h
      have h2 : (Except.error g : Except Int Unit) = Except.ok () := h
      simp at h2
    | true =>
      rw [validateFlag_ok m g hg] at h
      have ht : validateAll m t = Except.ok () := h
      rcases List.mem_cons.mp hf with rfl | hmem
      · exact hg
      · exact ih ht f hmem

theorem setFlags_eq_bind (m : FlagsManager) (fs : List Int) :
    setFlags m fs = (validateAll m fs).bind
      (fun _ => Except.ok { m with flags := fs.foldl Int.lor m.flags }) := rfl

theorem setFlags_ok (m : FlagsManager) {fs : List Int}
    (h : ∀ f ∈ fs, (m.FLAGS.map Prod.snd).contains f = true) :
    setFlags m fs = Except.ok { m with flags := fs.foldl Int.lor m.flags } := by
  rw [setFlags_eq_bind, validateAll_ok m h]
  rfl

theorem isFlagSet_ok (m : FlagsManager) (f : Int)
    (h : (m.FLAGS.map Prod.snd).contains f = true) :
    isFlagSet m f = Except.ok (decide (Int.land m.flags f ≠ 0)) := by
  show (validateFlag m f).bind _ = _
  rw [validateFlag_ok m f h]
  rfl

theorem toggleFlag_ok (m : FlagsManager) (f : Int)
    (h : (m.FLAGS.map Prod.snd).contains f = true) :
    toggleFlag m f = Except.ok { m with flags := Int.xor m.flags f } := by
  show (validateFlag m f).bind _ = _
  rw [validateFlag_ok m f h]
  rfl

theorem toggleFlag_eq_bind (m : FlagsManager) (f : Int) :
    toggleFlag m f = (validateFlag m f).bind
      (fun _ => Except.ok { m with flags := Int.xor m.flags f }) := rfl

theorem unsetFlag_ok (m : FlagsManager) (f : Int)
    (h : (m.FLAGS.map Prod.snd).contains f = true) :
    unsetFlag m f = Except.ok { m with flags := Int.land m.flags (Int.lnot f) } := by
  show (validateFlag m f).bind _ = _
  rw [validateFlag_ok m f h]
  rfl

theorem unsetFlag_eq_bind (m : FlagsManager) (f : Int) :
    unsetFlag m f = (validateFlag m f).bind
      (fun _ => Except.ok { m with flags := Int.land m.flags (Int.lnot f) }) := rfl

theorem areFlagsSet_eq (m : FlagsManager) (fs : List Int) :
    areFlagsSet m fs
      = decide (jsAnd m.flags (fs.foldl jsOr 0) = fs.foldl jsOr 0) := rfl

theorem int_land_eq_self_elem_iff (r : Int) (fs : List Int) :
    Int.land r (fs.foldl Int.lor 0) = fs.foldl Int.lor 0 ↔
      ∀ f ∈ fs, Int.land r f = f := by
  rw [int_land_eq_self_iff]
  constructor
  · intro h f hf
    rw [int_land_eq_self_iff]
    intro i hfi
    apply h
    rw [testBit_foldl_lor]
    simp only [List.any_eq_true, int_testBit_zero_bit, Bool.false_or]
    exact ⟨f, hf, hfi⟩
  · intro h i hi
    rw [testBit_foldl_lor] at hi
    simp only [List.any_eq_true, int_testBit_zero_bit, Bool.false_or] at hi
    obtain ⟨f, hf, hfi⟩ := hi
    exact (int_land_eq_self_iff.mp (h f hf)) i hfi

theorem toInt32_eq_self {x : Int} (h1 : -2147483648 ≤ x) (h2 : x < 2147483648) :
    toInt32 x = x := by
  unfold toInt32
  omega

theorem toInt32_range (x : Int) :
    -2147483648 ≤ toInt32 x ∧ toInt32 x < 2147483648 := by
  unfold toInt32
  constructor <;> omega

theorem toInt32_zero : toInt32 0 = 0 := by decide

theorem nat_bitwise_lt31 {f : Bool → Bool → Bool} {x y : Nat}
    (hx : x < 2147483648) (hy : y < 2147483648) :
    Nat.bitwise f x y < 2147483648 := by
  rw [show (2147483648 : Nat) = 2 ^ 31 by norm_num] at hx hy ⊢
  exact Nat.bitwise_lt_two_pow hx hy

theorem int_lor_range {a b : Int}
    (ha1 : -2147483648 ≤ a) (ha2 : a < 2147483648)
    (hb1 : -2147483648 ≤ b) (hb2 : b < 2147483648) :
    -2147483648 ≤ Int.lor a b ∧ Int.lor a b < 2147483648 := by
  cases a with
  | ofNat x =>
    have hx : x < 2147483648 := by
      rw [show Int.ofNat x = ((x : Nat) : Int) from rfl] at ha2
      exact_mod_cast ha2
    cases b with
    | ofNat y =>
      have hy : y < 2147483648 := by
        rw [show Int.ofNat y = ((y : Nat) : Int) from rfl] at hb2
        exact_mod_cast hb2
      have hxy : x ||| y < 2147483648 := nat_bitwise_lt31 hx hy
      rw [show Int.lor (Int.ofNat x) (Int.ofNat y)
          = ((x ||| y : Nat) : Int) from rfl]
      omega
    | negSucc y =>
      have hy : y < 2147483648 := by
        rw [Int.negSucc_eq] at hb1
        omega
      have hld : Nat.ldiff y x < 2147483648 := nat_bitwise_lt31 hy hx
      rw [show Int.lor (Int.ofNat x) (Int.negSucc y)
          = Int.negSucc (Nat.ldiff y x) from rfl, Int.negSucc_eq]
      omega
  | negSucc x =>
    have hx : x < 2147483648 := by
      rw [Int.negSucc_eq] at ha1
      omega
    cases b with
    | ofNat y =>
      have hy : y < 2147483648 := by
        rw [show Int.ofNat y = ((y : Nat) : Int) from rfl] at hb2
        exact_mod_cast hb2
      have hld : Nat.ldiff x y < 2147483648 := nat_bitwise_lt31 hx hy
      rw [show Int.lor (Int.negSucc x) (Int.ofNat y)
          = Int.negSucc (Nat.ldiff x y) from rfl, Int.negSucc_eq]
      omega
    | negSucc y =>
      have hy : y < 2147483648 := by
        rw [Int.negSucc_eq] at hb1
        omega
      have hld : x &&& y < 2147483648 := nat_bitwise_lt31 hx hy
      rw [show Int.lor (Int.negSucc x) (Int.negSucc y)
          = Int.negSucc (x &&& y) from rfl, Int.negSucc_eq]
      omega

theorem foldl_jsOr_eq (fs : List Int) : ∀ acc : Int,
    -2147483648 ≤ acc → acc < 2147483648 →
    fs.foldl jsOr acc = (fs.map toInt32).foldl Int.lor acc ∧
    -2147483648 ≤ fs.foldl jsOr acc ∧ fs.foldl jsOr acc < 2147483648 := by
  induction fs with
  | nil => intro acc h1 h2; exact ⟨rfl, h1, h2⟩
  | cons f t ih =>
    intro acc h1 h2
    have hf := toInt32_range f
    have hstep : jsOr acc f = Int.lor acc (toInt32 f) := by
      unfold jsOr
      rw [toInt32_eq_self h1 h2]
    have hr := int_lor_range h1 h2 hf.1 hf.2
    rw [List.foldl_cons, List.map_cons, List.foldl_cons, hstep]
    exact ih (Int.lor acc (toInt32 f)) hr.1 hr.2

/-! ### Claim theorems -/

/-- C9: calling `setFlags` with zero arguments always succeeds (the
validation loop runs over no elements) and returns the state unchanged, for
every register state. -/
theorem claim_C9 (m : FlagsManager) : setFlags m [] = Except.ok m := rfl

/-- C3: for every register state and every list of integer arguments,
`areFlagsSet` performs no membership validation (it is total on arbitrary
integer lists and never produces an error); it folds the arguments into a
composite mask with the JS 32-bit OR and returns true iff
`(register AND mask) == mask` under the JS 32-bit AND — equivalently, iff
each argument's 32-bit truncation has all its bits set in the register's
32-bit truncation; with zero arguments it returns true unconditionally for
any register state, and it accepts out-of-int32-range integers, on which it
wraps: `areFlagsSet (2 ^ 32)` on register 0 returns true because
`2 ^ 32 = 4294967296` coerces to mask 0. -/
theorem claim_C3 (m : FlagsManager) (fs : List Int) :
    (areFlagsSet m fs = true ↔
       jsAnd m.flags (fs.foldl jsOr 0) = fs.foldl jsOr 0) ∧
    (areFlagsSet m fs = true ↔
       ∀ f ∈ fs, Int.land (toInt32 m.flags) (toInt32 f) = toInt32 f) ∧
    areFlagsSet m [] = true ∧
    areFlagsSet { flags := 0, FLAGS := DEFAULT_FLAGS } [4294967296] = true := by
  obtain ⟨heq, hlo, hhi⟩ := foldl_jsOr_eq fs 0 (by norm_num) (by norm_num)
  refine ⟨by simp [areFlagsSet_eq], ?_, ?_, by decide⟩
  · rw [areFlagsSet_eq, decide_eq_true_eq]
    unfold jsAnd
    rw [heq] at hlo hhi ⊢
    rw [toInt32_eq_self hlo hhi,
      int_land_eq_self_elem_iff (toInt32 m.flags) (fs.map toInt32)]
    constructor
    · intro h f hf
      exact h (toInt32 f) (List.mem_map_of_mem toInt32 hf)
    · intro h g hg
      obtain ⟨f, hf, rfl⟩ := List.mem_map.mp hg
      exact h f hf
  · rw [areFlagsSet_eq]
    simp [jsAnd, toInt32_zero, int_land_zero]

/-- C2: if any argument of `setFlags` is not a member of the flag definition
set, then `setFlags` returns `Except.error` carrying an offending value (the
first invalid argument) and produces no new state — in this state-passing
embedding the caller keeps the unchanged input register, mirroring the
source, where the `forEach` validation loop throws before the register
assignment runs; in particular `setFlags (1 <<< 15) = setFlags 32768` on a
default register fails reporting 32768. -/
theorem claim_C2 (m : FlagsManager) (fs : List Int)
    (h : ∃ f ∈ fs, (m.FLAGS.map Prod.snd).contains f = false) :
    (∃ f ∈ fs, (m.FLAGS.map Prod.snd).contains f = false ∧
       setFlags m fs = Except.error f) ∧
    setFlags (mkFlagsManager none) [32768] = Except.error 32768 := by
  constructor
  · obtain ⟨f, hf, hc, he⟩ := validateAll_first_error m h
    refine ⟨f, hf, hc, ?_⟩
    rw [setFlags_eq_bind, he]
    rfl
  · rfl

/-- Witness for C2 at the spec's concrete input: a default register and the
single argument `1 <<< 15 = 32768`. -/
theorem claim_C2_witness :
    (∃ f ∈ [(32768 : Int)],
       (((mkFlagsManager none).FLAGS.map Prod.snd).contains f = false ∧
        setFlags (mkFlagsManager none) [32768] = Except.error f)) ∧
    setFlags (mkFlagsManager none) [32768] = Except.error 32768 :=
  claim_C2 (mkFlagsManager none) [32768] ⟨32768, by decide, by decide⟩

/-- C4: toggling a member flag succeeds and XORs it into the register;
toggling twice restores the exact pre-toggle state; and when the flag is the
single bit `2 ^ k`, one toggle flips exactly bit `k` and leaves every other
bit of the register unchanged. -/
theorem claim_C4 (m : FlagsManager) (a : Int)
    (h : (m.FLAGS.map Prod.snd).contains a = true) :
    ∃ m', toggleFlag m a = Except.ok m' ∧
      m'.flags = Int.xor m.flags a ∧
      toggleFlag m' a = Except.ok m ∧
      ∀ k : Nat, a = (2 : Int) ^ k →
        (Int.testBit m'.flags k = !(Int.testBit m.flags k)) ∧
        ∀ i, i ≠ k → Int.testBit m'.flags i = Int.testBit m.flags i := by
  refine ⟨{ m with flags := Int.xor m.flags a }, toggleFlag_ok m a h, rfl, ?_, ?_⟩
  · have h2 : ((({ m with flags := Int.xor m.flags a } :
        FlagsManager).FLAGS).map Prod.snd).contains a = true := h
    rw [toggleFlag_ok _ a h2]
    show Except.ok { m with flags := Int.xor (Int.xor m.flags a) a } = Except.ok m
    rw [int_xor_xor_cancel]
  · intro k hk
    subst hk
    constructor
    · show Int.testBit (Int.xor m.flags ((2 : Int) ^ k)) k = _
      rw [Int.testBit_lxor, int_testBit_two_pow]
      simp
    · intro i hik
      show Int.testBit (Int.xor m.flags ((2 : Int) ^ k)) i = _
      rw [Int.testBit_lxor, int_testBit_two_pow, decide_eq_false (fun hc => hik (hc.symm))]
      simp

/-- Witness for C4 on a concrete register (value 5, default flag set) and
the flag `VERIFIED_EMAIL = 1 = 2 ^ 0`. -/
theorem claim_C4_witness :
    ∃ m', toggleFlag { flags := 5, FLAGS := DEFAULT_FLAGS } 1 = Except.ok m' ∧
      m'.flags = Int.xor 5 1 ∧
      toggleFlag m' 1 = Except.ok { flags := 5, FLAGS := DEFAULT_FLAGS } ∧
      ∀ k : Nat, (1 : Int) = (2 : Int) ^ k →
        (Int.testBit m'.flags k
          = !(Int.testBit ({ flags := 5, FLAGS := DEFAULT_FLAGS } :
                FlagsManager).flags k)) ∧
        ∀ i, i ≠ k → Int.testBit m'.flags i
          = Int.testBit ({ flags := 5, FLAGS := DEFAULT_FLAGS } :
              FlagsManager).flags i :=
  claim_C4 { flags := 5, FLAGS := DEFAULT_FLAGS } 1 (by decide)

/-- C5: unsetting a member flag succeeds and clears exactly its bits
(AND with the bitwise complement); if the flag's bit is already clear the
register is returned unchanged (idempotent no-op); and after `setFlags(a)`
followed by `unsetFlag(a)`, `isFlagSet(a)` reports false. -/
theorem claim_C5 (m : FlagsManager) (a : Int)
    (h : (m.FLAGS.map Prod.snd).contains a = true) :
    (∃ m', unsetFlag m a = Except.ok m' ∧
       m'.flags = Int.land m.flags (Int.lnot a) ∧
       (Int.land m.flags a = 0 → m' = m)) ∧
    (∃ m1 m2, setFlags m [a] = Except.ok m1 ∧ unsetFlag m1 a = Except.ok m2 ∧
       isFlagSet m2 a = Except.ok false) := by
  constructor
  · refine ⟨{ m with flags := Int.land m.flags (Int.lnot a) },
      unsetFlag_ok m a h, rfl, ?_⟩
    intro hclear
    show ({ m with flags := Int.land m.flags (Int.lnot a) } : FlagsManager) = m
    rw [int_land_lnot_of_land_eq_zero hclear]
  · have hsingle : ∀ f ∈ [a], (m.FLAGS.map Prod.snd).contains f = true := by
      intro f hf
      rw [List.mem_singleton] at hf
      subst hf
      exact h
    have h1 : setFlags m [a] = Except.ok { m with flags := Int.lor m.flags a } :=
      setFlags_ok m hsingle
    refine ⟨{ m with flags := Int.lor m.flags a },
      { m with flags := Int.land (Int.lor m.flags a) (Int.lnot a) }, h1,
      unsetFlag_ok { m with flags := Int.lor m.flags a } a h, ?_⟩
    rw [isFlagSet_ok { m with flags := Int.land (Int.lor m.flags a) (Int.lnot a) } a h]
    show Except.ok (decide
      (Int.land (Int.land (Int.lor m.flags a) (Int.lnot a)) a ≠ 0)) = _
    rw [int_set_unset_clears]
    simp

/-- Witness for C5 on a concrete register (value 5, default flag set) and
the flag `INVITED = 4`. -/
theorem claim_C5_witness :
    (∃ m', unsetFlag { flags := 5, FLAGS := DEFAULT_FLAGS } 4 = Except.ok m' ∧
       m'.flags = Int.land 5 (Int.lnot 4) ∧
       (Int.land 5 4 = 0 →
         m' = { flags := 5, FLAGS := DEFAULT_FLAGS })) ∧
    (∃ m1 m2, setFlags { flags := 5, FLAGS := DEFAULT_FLAGS } [4] = Except.ok m1 ∧
       unsetFlag m1 4 = Except.ok m2 ∧ isFlagSet m2 4 = Except.ok false) :=
  claim_C5 { flags := 5, FLAGS := DEFAULT_FLAGS } 4 (by decide)

/-- C6: the spec's concrete scenario on a freshly constructed default
register: `setFlags(VERIFIED_EMAIL=1, INVITED=4)` yields register 5, where
`isFlagSet(VERIFIED_EMAIL)` is true and `isFlagSet(ACCEPTED=8)` is false;
then `toggleFlag(VERIFIED_EMAIL)` yields register 4 and `unsetFlag(INVITED)`
yields register 0. -/
theorem claim_C6 :
    setFlags (mkFlagsManager none) [1, 4]
        = Except.ok { flags := 5, FLAGS := DEFAULT_FLAGS } ∧
    isFlagSet { flags := 5, FLAGS := DEFAULT_FLAGS } 1 = Except.ok true ∧
    isFlagSet { flags := 5, FLAGS := DEFAULT_FLAGS } 8 = Except.ok false ∧
    toggleFlag { flags := 5, FLAGS := DEFAULT_FLAGS } 1
        = Except.ok { flags := 4, FLAGS := DEFAULT_FLAGS } ∧
    unsetFlag { flags := 4, FLAGS := DEFAULT_FLAGS } 4
        = Except.ok { flags := 0, FLAGS := DEFAULT_FLAGS } := by
  refine ⟨rfl, rfl, rfl, rfl, ?_⟩
  rw [unsetFlag_ok _ 4 (by decide)]
  show Except.ok ({ flags := Int.land 4 (Int.lnot 4), FLAGS := DEFAULT_FLAGS }
    : FlagsManager) = _
  rw [int_land_lnot_self]

/-- C7: for every register state, `getActiveFlags` returns exactly the names
of the flags whose bits are set in the register (membership
characterisation), as a sublist of the definition set's keys — hence in
declaration order; `clearFlags` always resets the register to zero, and
right after it `getActiveFlags` returns the empty sequence. -/
theorem claim_C7 (m : FlagsManager) :
    (∀ name, name ∈ getActiveFlags m ↔
       ∃ v, (name, v) ∈ m.FLAGS ∧ Int.land m.flags v ≠ 0) ∧
    List.Sublist (getActiveFlags m) (m.FLAGS.map Prod.fst) ∧
    (clearFlags m).flags = 0 ∧
    getActiveFlags (clearFlags m) = [] := by
  refine ⟨?_, ?_, rfl, ?_⟩
  · intro name
    constructor
    · intro hname
      obtain ⟨p, hp, hpn⟩ := List.mem_map.mp hname
      obtain ⟨hpF, hpd⟩ := List.mem_filter.mp hp
      refine ⟨p.2, ?_, of_decide_eq_true hpd⟩
      rw [← hpn]
      exact hpF
    · rintro ⟨v, hv, hnz⟩
      exact List.mem_map.mpr
        ⟨(name, v), List.mem_filter.mpr ⟨hv, decide_eq_true hnz⟩, rfl⟩
  · exact List.Sublist.map Prod.fst (List.filter_sublist m.FLAGS)
  · show ((m.FLAGS.filter fun p => decide (Int.land 0 p.2 ≠ 0)).map Prod.fst) = []
    simp [int_zero_land]

/-! ### Behaviour of `createCustomFlags` and the constructor -/

theorem objSet_of_not_mem (o : List (String × Int)) (k : String) (v : Int)
    (h : ∀ q ∈ o, q.1 ≠ k) : objSet o k v = o ++ [(k, v)] := by
  have hany : (o.any fun p => p.1 == k) = false := by
    apply List.any_eq_false.mpr
    intro p hp
    simpa using h p hp
  unfold objSet
  rw [hany]
  rfl

theorem createCustomFlags_foldl (names : List String) :
    ∀ (i : Nat) (acc : List (String × Int)),
      names.Nodup → (∀ n ∈ names, ∀ q ∈ acc, q.1 ≠ n) →
      (List.enumFrom i names).foldl (fun a p => objSet a p.2 (jsShl1 p.1)) acc
        = acc ++ (List.enumFrom i names).map (fun p => (p.2, jsShl1 p.1)) := by
  induction names with
  | nil => intro i acc _ _; simp
  | cons a t ih =>
    intro i acc hnd hdis
    rw [show List.enumFrom i (a :: t) = (i, a) :: List.enumFrom (i + 1) t from rfl,
      List.foldl_cons]
    have hset : objSet acc a (jsShl1 i) = acc ++ [(a, jsShl1 i)] :=
      objSet_of_not_mem acc a _ (fun q hq => hdis a (List.mem_cons_self a t) q hq)
    have hna : a ∉ t := (List.nodup_cons.mp hnd).1
    have hdis2 : ∀ n ∈ t, ∀ q ∈ acc ++ [(a, jsShl1 i)], q.1 ≠ n := by
      intro n hn q hq
      rcases List.mem_append.mp hq with hmem | hmem
      · exact hdis n (List.mem_cons_of_mem a hn) q hmem
      · rw [List.mem_singleton] at hmem
        subst hmem
        intro hc
        have hc2 : a = n := hc
        apply hna
        rw [hc2]
        exact hn
    show (List.enumFrom (i + 1) t).foldl (fun a p => objSet a p.2 (jsShl1 p.1))
        (objSet acc a (jsShl1 i)) = _
    rw [hset, ih (i + 1) (acc ++ [(a, jsShl1 i)]) (List.nodup_cons.mp hnd).2 hdis2]
    simp

theorem createCustomFlags_nodup (names : List String) (h : names.Nodup) :
    createCustomFlags names = names.enum.map (fun p => (p.2, jsShl1 p.1)) := by
  unfold createCustomFlags
  rw [show names.enum = List.enumFrom 0 names from rfl]
  exact createCustomFlags_foldl names 0 [] h (by intro n _ q hq; simp at hq)

/-- C1 counterexample: the constructor raises no error of any kind.  On the
duplicate name list `["A", "A"]` construction succeeds and silently yields a
one-entry definition set in which the duplicated name got the second
index's bit value, instead of failing with `InvalidConfiguration` as the
claim states. -/
theorem claim_C1_counterexample :
    mkFlagsManager (some ["A", "A"]) = { flags := 0, FLAGS := [("A", 2)] } := rfl

/-- C1 (amended): constructing a register from a custom name list never
fails — the constructor performs no validation and always returns register 0
with the definition set built by `createCustomFlags`; a duplicate name keeps
its first position but is silently overwritten with the bit value of its
last index (witnessed on `["A", "A"]`), and an entry index at or beyond the
32-bit width silently wraps the shift count mod 32 (`1 <<< 32` gives 1)
instead of raising an error. -/
theorem claim_C1 (names : List String) :
    mkFlagsManager (some names) = { flags := 0, FLAGS := createCustomFlags names } ∧
    mkFlagsManager (some ["A", "A"]) = { flags := 0, FLAGS := [("A", 2)] } ∧
    jsShl1 32 = 1 :=
  ⟨rfl, rfl, rfl⟩

/-- C8 counterexample: on the duplicate list `["A", "A"]` the resulting
mapping sends the 0th name `"A"` to 2, not to `1 <<< 0 = 1`, so the claimed
mapping law fails for lists with repeated names. -/
theorem claim_C8_counterexample :
    List.lookup "A" (createCustomFlags ["A", "A"]) = some 2 ∧ (2 : Int) ≠ 1 := by
  exact ⟨rfl, by decide⟩

/-- C8 (amended): `createCustomFlags` is a pure function of the name list
alone (it reads no register state — its model takes only the names); for
every list of distinct names it maps the Nth name (0-indexed) to the JS
32-bit value of `1 <<< N`, which equals `2 ^ N` for every `N ≤ 30`; in
particular `["A", "B", "C"]` yields exactly `{A: 1, B: 2, C: 4}`.  With
duplicate names the later index silently overwrites the earlier value, as
the counterexample shows. -/
theorem claim_C8 (names : List String) (h : names.Nodup) :
    createCustomFlags names = names.enum.map (fun p => (p.2, jsShl1 p.1)) ∧
    (∀ N : Nat, N ≤ 30 → jsShl1 N = 2 ^ N) ∧
    createCustomFlags ["A", "B", "C"] = [("A", 1), ("B", 2), ("C", 4)] := by
  refine ⟨createCustomFlags_nodup names h, ?_, by decide⟩
  intro N hN
  have hm : N % 32 = N := Nat.mod_eq_of_lt (by omega)
  unfold jsShl1
  rw [hm, if_neg (by omega)]

/-- Witness for C8 at the spec's concrete list `["A", "B", "C"]`. -/
theorem claim_C8_witness :
    createCustomFlags ["A", "B", "C"]
        = (["A", "B", "C"] : List String).enum.map (fun p => (p.2, jsShl1 p.1)) ∧
    (∀ N : Nat, N ≤ 30 → jsShl1 N = 2 ^ N) ∧
    createCustomFlags ["A", "B", "C"] = [("A", 1), ("B", 2), ("C", 4)] :=
  claim_C8 ["A", "B", "C"] (by decide)

/-! ### Reachability invariant for default-constructed registers -/

/-- Invariant carried through every successful operation on a
default-constructed manager: the register has no bits outside the low 15,
and the definition set is still the default enumeration. -/
def GoodState (m : FlagsManager) : Prop :=
  Int.land m.flags (Int.lnot 32767) = 0 ∧ m.FLAGS = DEFAULT_FLAGS

theorem applyOp_preserves (m m1 : FlagsManager) (op : Op)
    (hg : GoodState m) (h : applyOp m op = Except.ok m1) : GoodState m1 := by
  obtain ⟨hmask, hdef⟩ := hg
  cases op with
  | set fs =>
    rw [show applyOp m (Op.set fs) = setFlags m fs from rfl, setFlags_eq_bind] at h
    cases hv : validateAll m fs with
    | error e =>
      rw [hv] at h
      have h2 : (Except.error e : Except Int FlagsManager) = Except.ok m1 := h
      simp at h2
    | ok u =>
      cases u
      rw [hv] at h
      have h2 : ({ m with flags := fs.foldl Int.lor m.flags } : FlagsManager)
          = m1 := by
        have h3 : (Except.ok { m with flags := fs.foldl Int.lor m.flags }
            : Except Int FlagsManager) = Except.ok m1 := h
        exact Except.ok.inj h3
      subst h2
      refine ⟨?_, hdef⟩
      have hall := contains_of_validateAll_ok m hv
      refine foldl_lor_masked fs m.flags hmask ?_
      intro f hf
      have hc := hall f hf
      rw [hdef] at hc
      exact default_value_masked f hc
  | toggle f =>
    rw [show applyOp m (Op.toggle f) = toggleFlag m f from rfl,
      toggleFlag_eq_bind] at h
    cases hc : (m.FLAGS.map Prod.snd).contains f with
    | false =>
      rw [validateFlag_error m f hc] at h
      have h2 : (Except.error f : Except Int FlagsManager) = Except.ok m1 := h
      simp at h2
    | true =>
      rw [validateFlag_ok m f hc] at h
      have h2 : ({ m with flags := Int.xor m.flags f } : FlagsManager) = m1 := by
        have h3 : (Except.ok { m with flags := Int.xor m.flags f }
            : Except Int FlagsManager) = Except.ok m1 := h
        exact Except.ok.inj h3
      subst h2
      rw [hdef] at hc
      exact ⟨int_xor_preserves_mask hmask (default_value_masked f hc), hdef⟩
  | unset f =>
    rw [show applyOp m (Op.unset f) = unsetFlag m f from rfl,
      unsetFlag_eq_bind] at h
    cases hc : (m.FLAGS.map Prod.snd).contains f with
    | false =>
      rw [validateFlag_error m f hc] at h
      have h2 : (Except.error f : Except Int FlagsManager) = Except.ok m1 := h
      simp at h2
    | true =>
      rw [validateFlag_ok m f hc] at h
      have h2 : ({ m with flags := Int.land m.flags (Int.lnot f) } : FlagsManager)
          = m1 := by
        have h3 : (Except.ok { m with flags := Int.land m.flags (Int.lnot f) }
            : Except Int FlagsManager) = Except.ok m1 := h
        exact Except.ok.inj h3
      subst h2
      exact ⟨int_landlnot_preserves_mask f hmask, hdef⟩
  | clear =>
    have h2 : clearFlags m = m1 := Except.ok.inj h
    subst h2
    exact ⟨int_zero_land _, hdef⟩

theorem runOps_preserves (ops : List Op) : ∀ m m1 : FlagsManager,
    GoodState m → runOps m ops = Except.ok m1 → GoodState m1 := by
  induction ops with
  | nil =>
    intro m m1 hg h
    have h2 : m = m1 := Except.ok.inj h
    subst h2
    exact hg
  | cons op rest ih =>
    intro m m1 hg h
    rw [show runOps m (op :: rest)
        = (applyOp m op).bind (fun m2 => runOps m2 rest) from rfl] at h
    cases ha : applyOp m op with
    | error e =>
      rw [ha] at h
      have h2 : (Except.error e : Except Int FlagsManager) = Except.ok m1 := h
      simp at h2
    | ok m2 =>
      rw [ha] at h
      exact ih m2 m1 (applyOp_preserves m m2 op hg ha) h

/-- C10: starting from a default-constructed register, after any sequence of
successful `setFlags`, `toggleFlag`, `unsetFlag` and `clearFlags` calls, the
register's set bits remain inside the OR of all default flag values:
`register AND NOT(2 ^ 15 - 1) == 0`. -/
theorem claim_C10 (ops : List Op) (m1 : FlagsManager)
    (h : runOps (mkFlagsManager none) ops = Except.ok m1) :
    Int.land m1.flags (Int.lnot ((2 : Int) ^ 15 - 1)) = 0 := by
  have h0 : GoodState (mkFlagsManager none) := ⟨int_zero_land _, rfl⟩
  have hres := (runOps_preserves ops (mkFlagsManager none) m1 h0 h).1
  rw [show ((2 : Int) ^ 15 - 1) = 32767 by norm_num]
  exact hres

/-- Witness for C10 on the concrete successful run
`setFlags(1, 4)` then `toggleFlag(1)`, which ends at register 4. -/
theorem claim_C10_witness :
    Int.land ({ flags := 4, FLAGS := DEFAULT_FLAGS } : FlagsManager).flags
      (Int.lnot ((2 : Int) ^ 15 - 1)) = 0 :=
  claim_C10 [Op.set [1, 4], Op.toggle 1]
    { flags := 4, FLAGS := DEFAULT_FLAGS } rfl

end BitwiseFlags
